import Mathlib

/-!
Shallow embedding of the portico demo signaling server's session/occupancy
core (`packages/portico-demo-server/src/data.ts`) and its live event
forwarder, together with proofs of the specification's claims about them.

Redis hashes are modelled as association lists with unique keys; the store
is a record of the key namespaces the core touches (`user:<id>`,
`room:<id>`, `room:<id>:connections`, `connection:<id>`,
`connection:<id>:signal`). Stream appends (`xadd`) and TTL refreshes
(`pexpire`) do not affect the properties below and are not represented.
-/

namespace Portico

/-- A Redis hash (string field → string value), as an association list. -/
abbrev Hash := List (String × String)

/-- Redis `HGET`: the value of field `k`, if present. -/
def hget : Hash → String → Option String
  | [], _ => none
  | p :: rest, k => if p.1 = k then some p.2 else hget rest k

/-- Redis `HSET` of a single field: replace the binding for `k`, or append it. -/
def hset : Hash → String → String → Hash
  | [], k, v => [(k, v)]
  | p :: rest, k, v => if p.1 = k then (k, v) :: rest else p :: hset rest k v

/-- Redis `HDEL` of a single field. -/
def hdel : Hash → String → Hash
  | [], _ => []
  | p :: rest, k => if p.1 = k then hdel rest k else p :: hdel rest k

/-- Redis `HKEYS`: the fields of the hash, in order. -/
def hkeys : Hash → List String
  | [] => []
  | p :: rest => p.1 :: hkeys rest

theorem hkeys_length (m : Hash) : (hkeys m).length = m.length := by
  induction m with
  | nil => rfl
  | cons p rest ih => simp [hkeys, ih]

theorem mem_hkeys_hset (m : Hash) (k v u : String) :
    u ∈ hkeys (hset m k v) ↔ u = k ∨ u ∈ hkeys m := by
  induction m with
  | nil => simp [hset, hkeys]
  | cons p rest ih =>
    by_cases hp : p.1 = k
    · simp only [hset, if_pos hp, hkeys, List.mem_cons, hp]
      tauto
    · simp only [hset, if_neg hp, hkeys, List.mem_cons, ih]
      tauto

theorem nodup_hkeys_hset (m : Hash) (k v : String) (h : (hkeys m).Nodup) :
    (hkeys (hset m k v)).Nodup := by
  induction m with
  | nil => simp [hset, hkeys]
  | cons p rest ih =>
    simp only [hkeys, List.nodup_cons] at h
    by_cases hp : p.1 = k
    · simp only [hset, if_pos hp, hkeys, List.nodup_cons]
      exact ⟨hp ▸ h.1, h.2⟩
    · simp only [hset, if_neg hp, hkeys, List.nodup_cons]
      refine ⟨fun hmem => ?_, ih h.2⟩
      rcases (mem_hkeys_hset rest k v p.1).mp hmem with h1 | h2
      · exact hp h1
      · exact h.1 h2

theorem mem_hkeys_hdel (m : Hash) (k u : String) (h : u ∈ hkeys (hdel m k)) :
    u ∈ hkeys m := by
  induction m with
  | nil => simp [hdel, hkeys] at h
  | cons p rest ih =>
    by_cases hp : p.1 = k
    · simp only [hdel, if_pos hp] at h
      simp only [hkeys, List.mem_cons]
      exact Or.inr (ih h)
    · simp only [hdel, if_neg hp, hkeys, List.mem_cons] at h
      rcases h with h | h
      · simp [hkeys, h]
      · simp only [hkeys, List.mem_cons]
        exact Or.inr (ih h)

theorem nodup_hkeys_hdel (m : Hash) (k : String) (h : (hkeys m).Nodup) :
    (hkeys (hdel m k)).Nodup := by
  induction m with
  | nil => simp [hdel, hkeys]
  | cons p rest ih =>
    simp only [hkeys, List.nodup_cons] at h
    by_cases hp : p.1 = k
    · simp only [hdel, if_pos hp]
      exact ih h.2
    · simp only [hdel, if_neg hp, hkeys, List.nodup_cons]
      exact ⟨fun hmem => h.1 (mem_hkeys_hdel rest k p.1 hmem), ih h.2⟩

theorem hget_hset_self (m : Hash) (k v : String) : hget (hset m k v) k = some v := by
  induction m with
  | nil => simp [hset, hget]
  | cons p rest ih =>
    by_cases hp : p.1 = k
    · simp [hset, hget, hp]
    · simp [hset, hget, hp, ih]

theorem filter_ne_eq_nil_iff (l : List String) (w : String) :
    l.filter (fun u => u ≠ w) = [] ↔ ∀ u ∈ l, u = w := by
  induction l with
  | nil => simp
  | cons a t ih =>
    by_cases ha : a = w
    · simp [List.filter_cons, ha, ih]
    · simp [List.filter_cons, ha, ih]

end Portico

namespace Portico

/-- A user record (`user:<id>` hash; the `created` field is not modelled). -/
structure UserRec where
  id : String
  name : String
deriving DecidableEq

/-- A room record (`room:<id>` hash; the `created` field is not modelled). -/
structure RoomRec where
  slug : String
  owner : String
deriving DecidableEq

/-- A connection record (`connection:<id>` hash). -/
structure ConnRec where
  room : String
  owner : String
deriving DecidableEq

/-- A participant's role in a room; derived, never stored. -/
inductive Role where
  | host
  | guest
deriving DecidableEq

/-- The room reference inside a created `Session`. -/
structure RoomRef where
  id : String
  slug : String
deriving DecidableEq

/-- The value returned by `createSession`. -/
structure Session where
  id : String
  role : Role
  room : RoomRef
deriving DecidableEq

/-- The tagged errors the session core raises (`ResponseError` subclasses). -/
inductive Err where
  | notFound
  | conflict
deriving DecidableEq

/-- The backing-store state: each key namespace touched by the session core.
`occ r` is the `room:<r>:connections` occupancy hash (user id → connection
id); `sigs c` is the `connection:<c>:signal` stream, `none` once deleted. -/
structure St where
  users : String → Option UserRec
  rooms : String → Option RoomRec
  occ : String → Hash
  conn : String → Option ConnRec
  sigs : String → Option (List String)

/-- The read-and-check phase of `ConnectedStore.createSession` (data.ts
311-330): `HMGET room:<id> owner slug`, derive the role, `HKEYS` the
occupancy hash, and raise the Conflict/NotFound errors. Returns the derived
role and the room slug. This phase is issued as plain reads: the `watch`
call on the occupancy key is commented out in the source. -/
def sessionCheck (s : St) (room actor : String) : Except Err (Role × String) :=
  match s.rooms room with
  | none => .error .notFound
  | some ro =>
    let role : Role := if actor = ro.owner then .host else .guest
    let conns := hkeys (s.occ room)
    let guests := conns.filter (fun u => u ≠ ro.owner)
    if actor ∈ conns then .error .conflict
    else if role = .guest ∧ guests ≠ [] then .error .conflict
    else .ok (role, ro.slug)

/-- The write phase of `ConnectedStore.createSession` (data.ts 332-343): a
pipeline that `HMSET`s the fresh connection record and `HSET`s the
occupancy entry. Not a transaction: it commits regardless of what happened
to the occupancy hash since the check phase read it. -/
def sessionWrite (s : St) (room actor cid : String) : St :=
  { s with
    conn := fun i => if i = cid then some { room := room, owner := actor } else s.conn i,
    occ := fun rm => if rm = room then hset (s.occ rm) actor cid else s.occ rm }

/-- Sequential `ConnectedStore.createSession`: the check phase followed
by the write phase against the same state, with `cid` standing for the
freshly minted uuid. -/
def createSession (s : St) (room actor cid : String) : Except Err (Session × St) :=
  match sessionCheck s room actor with
  | .error e => .error e
  | .ok rs =>
    .ok ({ id := cid, role := rs.1, room := { id := room, slug := rs.2 } },
      sessionWrite s room actor cid)

/-- Model of `ConnectedStore.getSession` (data.ts 354-369): fetch the connection
record, resolve its owner's user record, and verify the occupancy entry for
the owner still names this connection id. -/
def getSession (s : St) (id : String) : Option ConnRec :=
  match s.conn id with
  | none => none
  | some c =>
    match s.users c.owner with
    | none => none
    | some u =>
      if hget (s.occ c.room) u.id = some id then some { room := c.room, owner := u.id }
      else none

/-- The state left by a successful `deleteSession` on a connection with
record `c`: the occupancy entry for the owner is removed only if it still
names this connection id (`WATCH`ed compare, `UNWATCH` and skip
otherwise); the connection record and its signal stream are deleted
unconditionally. -/
def delPost (s : St) (id : String) (c : ConnRec) : St :=
  { s with
    occ :=
      if hget (s.occ c.room) c.owner = some id then
        fun rm => if rm = c.room then hdel (s.occ c.room) c.owner else s.occ rm
      else s.occ,
    conn := fun i => if i = id then none else s.conn i,
    sigs := fun i => if i = id then none else s.sigs i }

/-- Model of `ConnectedStore.deleteSession` (data.ts 371-396): fetch the connection
record (NotFound if absent), then commit `delPost`. -/
def deleteSession (s : St) (id : String) : Except Err St :=
  match s.conn id with
  | none => .error .notFound
  | some c => .ok (delPost s id c)

/-- The post-state of a successful `deleteSession`, as a total function. -/
def delRun (s : St) (id : String) : St :=
  match deleteSession s id with
  | .ok s' => s'
  | .error _ => s

/-- Model of `ConnectedStore.updateUser` (data.ts 242-251): `WATCH` the user key,
raise NotFound if it does not exist, then `MULTI`-`HSET` the name. The
transaction commits only if the watched key was untouched between the check
(state `s1`) and the commit (state `s2`); the source never awaits the
`exec` result, so an aborted transaction is not reported as an error here. -/
def connUpdateUser (s1 s2 : St) (id nm : String) : Except Err St :=
  match s1.users id with
  | none => .error .notFound
  | some _ =>
    if s1.users id = s2.users id then
      .ok { s2 with
            users := fun i =>
              if i = id then (s2.users i).map (fun u => { u with name := nm })
              else s2.users i }
    else .ok s2

/-- Model of `Store.updateUser` (data.ts 52-61): run `ConnectedStore.updateUser`,
then re-fetch the user and raise Conflict if the record no longer exists. -/
def storeUpdateUser (s1 s2 : St) (id nm : String) : Except Err (UserRec × St) :=
  match connUpdateUser s1 s2 id nm with
  | .error e => .error e
  | .ok s' =>
    match s'.users id with
    | none => .error .conflict
    | some u => .ok (u, s')

/-- A stored room-stream message (`message.ts` `StoredMessage`): the tagged
union Join/Leave/Chat, with the acting user as a bare user id. -/
inductive StoredMessage where
  | join (time : Nat) (user : String) (session : String) (role : Role)
  | leave (time : Nat) (user : String) (session : String)
  | chat (time : Nat) (user : String) (session : String) (message : String)
deriving DecidableEq

/-- The acting user id of a stored message (`data.user`). -/
def StoredMessage.user : StoredMessage → String
  | .join _ u _ _ => u
  | .leave _ u _ => u
  | .chat _ u _ _ => u

/-- The connection id of a stored message (`data.session`). -/
def StoredMessage.session : StoredMessage → String
  | .join _ _ c _ => c
  | .leave _ _ c => c
  | .chat _ _ c _ => c

/-- Whether `data.type === "join"`. -/
def StoredMessage.isJoin : StoredMessage → Bool
  | .join _ _ _ _ => true
  | _ => false

/-- Whether `data.type === "leave"`. -/
def StoredMessage.isLeave : StoredMessage → Bool
  | .leave _ _ _ => true
  | _ => false

/-- An opaque negotiation signal (`Signal`): an ICE candidate batch or an
SDP description, with its payload left uninterpreted. -/
inductive Signal where
  | ice (payload : String)
  | sdp (payload : String)
deriving DecidableEq

/-- One decoded entry read off a stream in the forwarder's relay loop:
either a room message or a peer signal. -/
inductive StreamData where
  | message (m : StoredMessage)
  | signal (sg : Signal)
deriving DecidableEq

/-- An event written to the destination websocket (`message.ts` `Event`):
a message enriched with the resolved user record, or a verbatim signal. -/
inductive Event where
  | join (time : Nat) (user : UserRec) (session : String) (role : Role)
  | leave (time : Nat) (user : UserRec) (session : String)
  | chat (time : Nat) (user : UserRec) (session : String) (message : String)
  | signal (sg : Signal)
deriving DecidableEq

/-- Enrichment `send({ ...data, user })`: the stored message enriched with the
resolved user record. -/
def StoredMessage.enrich : StoredMessage → UserRec → Event
  | .join t _ c role, u => .join t u c role
  | .leave t _ c, u => .leave t u c
  | .chat t _ c msg, u => .chat t u c msg

/-- The per-forwarder mutable state of `Store.forwardEvents`: the current
peer connection id (if known) and the memoized user cache (which also
caches failed lookups, as `users.set(id, user)` stores `null` results). -/
structure FwdState where
  peer : Option String
  users : List (String × Option UserRec)

/-- Lookup in the forwarder's memoized user cache (`users.get(id)`). -/
def cacheGet : List (String × Option UserRec) → String → Option (Option UserRec)
  | [], _ => none
  | p :: rest, k => if p.1 = k then some p.2 else cacheGet rest k

/-- The forwarder's `getUser` closure (data.ts 104-112): consult the memo
cache; on a miss, fetch from the store and cache the result (even `null`). -/
def resolveUser (s : St) (cache : List (String × Option UserRec)) (id : String) :
    Option UserRec × List (String × Option UserRec) :=
  match cacheGet cache id with
  | some u => (u, cache)
  | none => (s.users id, (id, s.users id) :: cache)

/-- One iteration of the relay loop's per-entry body (data.ts 162-182),
for an already-decoded entry: resolve and forward a Join/Leave/Chat (only
when the user resolves), then apply the peer adoption/drop transition;
forward ICE/SDP signals verbatim. Returns the next forwarder state and the
list of events sent to the destination. -/
def fwdStep (s : St) (actor : String) (st : FwdState) (d : StreamData) :
    FwdState × List Event :=
  match d with
  | .message m =>
    let resolved := resolveUser s st.users m.user
    let sent : List Event :=
      match resolved.1 with
      | some u => [m.enrich u]
      | none => []
    let peerNext : Option String :=
      if m.isJoin = true ∧ m.user ≠ actor then some m.session
      else if m.isLeave = true ∧ st.peer = some m.session then none
      else st.peer
    ({ peer := peerNext, users := resolved.2 }, sent)
  | .signal sg => (st, [.signal sg])

/-- A sequential invocation of the session manager: one `createSession` or
`deleteSession` call (failed calls leave the store unchanged). -/
inductive SessOp where
  | create (room actor cid : String)
  | delete (cid : String)

/-- Apply one session operation to the store. -/
def applyOp (s : St) (op : SessOp) : St :=
  match op with
  | .create room actor cid =>
    match createSession s room actor cid with
    | .ok r => r.2
    | .error _ => s
  | .delete cid =>
    match deleteSession s cid with
    | .ok s' => s'
    | .error _ => s

/-- Run a sequence of session operations. -/
def runOps (s : St) (ops : List SessOp) : St :=
  ops.foldl applyOp s

/-- A store whose occupancy maps are all empty and which holds no
connection records: the starting point of the occupancy-invariant claim. -/
def initSt (rooms0 : String → Option RoomRec) (users0 : String → Option UserRec) : St :=
  { users := users0, rooms := rooms0, occ := fun _ => [], conn := fun _ => none,
    sigs := fun _ => none }

/-- The occupancy invariant: every room's occupancy hash has distinct
fields, and any two occupant user ids other than the room's owner
coincide (at most one guest). -/
def OccInv (s : St) : Prop :=
  ∀ r, (hkeys (s.occ r)).Nodup ∧
    ∀ ro, s.rooms r = some ro →
      ∀ u ∈ hkeys (s.occ r), ∀ v ∈ hkeys (s.occ r),
        u ≠ ro.owner → v ≠ ro.owner → u = v

/-- User records store their own id under the `id` field (`createUser`
writes `id` equal to the key; `getUser` reads it back). -/
def UsersWF (s : St) : Prop :=
  ∀ i u, s.users i = some u → u.id = i

theorem sessionWrite_rooms (s : St) (room actor cid : String) :
    (sessionWrite s room actor cid).rooms = s.rooms := rfl

theorem sessionWrite_occ_self (s : St) (room actor cid : String) :
    (sessionWrite s room actor cid).occ room = hset (s.occ room) actor cid := by
  simp [sessionWrite]

theorem sessionWrite_occ_other (s : St) (room actor cid r' : String) (h : r' ≠ room) :
    (sessionWrite s room actor cid).occ r' = s.occ r' := by
  simp [sessionWrite, h]

theorem sessionWrite_conn_self (s : St) (room actor cid : String) :
    (sessionWrite s room actor cid).conn cid = some { room := room, owner := actor } := by
  simp [sessionWrite]

theorem delPost_rooms (s : St) (id : String) (c : ConnRec) :
    (delPost s id c).rooms = s.rooms := rfl

theorem delPost_occ_current (s : St) (id : String) (c : ConnRec)
    (h : hget (s.occ c.room) c.owner = some id) (rm : String) :
    (delPost s id c).occ rm =
      if rm = c.room then hdel (s.occ c.room) c.owner else s.occ rm := by
  simp [delPost, h]

theorem delPost_occ_stale (s : St) (id : String) (c : ConnRec)
    (h : ¬hget (s.occ c.room) c.owner = some id) :
    (delPost s id c).occ = s.occ := by
  simp [delPost, h]

theorem delPost_conn_self (s : St) (id : String) (c : ConnRec) :
    (delPost s id c).conn id = none := by
  simp [delPost]

theorem delPost_sigs_self (s : St) (id : String) (c : ConnRec) :
    (delPost s id c).sigs id = none := by
  simp [delPost]

theorem deleteSession_notFound (s : St) (id : String) (h : s.conn id = none) :
    deleteSession s id = .error .notFound := by
  simp [deleteSession, h]

theorem deleteSession_found (s : St) (id : String) (c : ConnRec) (h : s.conn id = some c) :
    deleteSession s id = .ok (delPost s id c) := by
  simp [deleteSession, h]

theorem delRun_found (s : St) (id : String) (c : ConnRec) (h : s.conn id = some c) :
    delRun s id = delPost s id c := by
  simp [delRun, deleteSession_found s id c h]

theorem sessionCheck_notFound (s : St) (room actor : String) (h : s.rooms room = none) :
    sessionCheck s room actor = .error .notFound := by
  simp [sessionCheck, h]

theorem sessionCheck_already (s : St) (room actor : String) (ro : RoomRec)
    (hr : s.rooms room = some ro) (h : actor ∈ hkeys (s.occ room)) :
    sessionCheck s room actor = .error .conflict := by
  simp [sessionCheck, hr, h]

theorem sessionCheck_guestFull (s : St) (room actor : String) (ro : RoomRec)
    (hr : s.rooms room = some ro) (hA : actor ∉ hkeys (s.occ room))
    (ho : actor ≠ ro.owner)
    (hg : (hkeys (s.occ room)).filter (fun u => u ≠ ro.owner) ≠ []) :
    sessionCheck s room actor = .error .conflict := by
  have hex : ∃ x ∈ hkeys (s.occ room), ¬x = ro.owner := by
    by_contra hco
    push_neg at hco
    exact hg ((filter_ne_eq_nil_iff _ _).mpr hco)
  simp [sessionCheck, hr, hA, ho]
  exact hex

theorem sessionCheck_ok (s : St) (room actor : String) (ro : RoomRec)
    (hr : s.rooms room = some ro) (hA : actor ∉ hkeys (s.occ room))
    (hG : actor = ro.owner ∨ ∀ u ∈ hkeys (s.occ room), u = ro.owner) :
    sessionCheck s room actor =
      .ok (if actor = ro.owner then Role.host else Role.guest, ro.slug) := by
  by_cases hh : actor = ro.owner
  · subst hh
    simp [sessionCheck, hr, hA]
  · have hall : ∀ u ∈ hkeys (s.occ room), u = ro.owner := by
      rcases hG with hG | hG
      · exact absurd hG hh
      · exact hG
    simp [sessionCheck, hr, hA, hh]
    exact hall

theorem sessionCheck_ok_inv (s : St) (room actor : String) (rs : Role × String)
    (h : sessionCheck s room actor = .ok rs) :
    ∃ ro, s.rooms room = some ro ∧ actor ∉ hkeys (s.occ room) ∧
      (actor = ro.owner ∨ ∀ u ∈ hkeys (s.occ room), u = ro.owner) := by
  cases hr : s.rooms room with
  | none =>
    rw [sessionCheck_notFound s room actor hr] at h
    exact Except.noConfusion h
  | some ro =>
    by_cases hA : actor ∈ hkeys (s.occ room)
    · rw [sessionCheck_already s room actor ro hr hA] at h
      exact Except.noConfusion h
    · by_cases hh : actor = ro.owner
      · exact ⟨ro, rfl, hA, Or.inl hh⟩
      · by_cases hg : (hkeys (s.occ room)).filter (fun u => u ≠ ro.owner) = []
        · exact ⟨ro, rfl, hA, Or.inr ((filter_ne_eq_nil_iff _ _).mp hg)⟩
        · rw [sessionCheck_guestFull s room actor ro hr hA hh hg] at h
          exact Except.noConfusion h

theorem createSession_of_check_error (s : St) (room actor cid : String) (e : Err)
    (h : sessionCheck s room actor = .error e) :
    createSession s room actor cid = .error e := by
  simp [createSession, h]

theorem createSession_of_check_ok (s : St) (room actor cid : String) (rs : Role × String)
    (h : sessionCheck s room actor = .ok rs) :
    createSession s room actor cid =
      .ok ({ id := cid, role := rs.1, room := { id := room, slug := rs.2 } },
        sessionWrite s room actor cid) := by
  simp [createSession, h]

theorem occInv_sessionWrite (s : St) (room actor cid : String) (ro : RoomRec)
    (hr : s.rooms room = some ro)
    (hA : actor ∉ hkeys (s.occ room))
    (hG : actor = ro.owner ∨ ∀ u ∈ hkeys (s.occ room), u = ro.owner)
    (hinv : OccInv s) : OccInv (sessionWrite s room actor cid) := by
  intro r'
  constructor
  · by_cases hrr : r' = room
    · subst hrr
      rw [sessionWrite_occ_self]
      exact nodup_hkeys_hset _ _ _ (hinv r').1
    · rw [sessionWrite_occ_other s room actor cid r' hrr]
      exact (hinv r').1
  · intro ro' hro' u hu v hv huo hvo
    have hro2 : s.rooms r' = some ro' := hro'
    by_cases hrr : r' = room
    · rw [hrr] at hu hv hro2
      rw [hr] at hro2
      injection hro2 with heq
      rw [← heq] at huo hvo
      rw [sessionWrite_occ_self] at hu hv
      rcases hG with hh | hall
      · rcases (mem_hkeys_hset _ _ _ _).mp hu with hu1 | hu1
        · exact absurd (hu1.trans hh) huo
        · rcases (mem_hkeys_hset _ _ _ _).mp hv with hv1 | hv1
          · exact absurd (hv1.trans hh) hvo
          · exact (hinv room).2 ro hr u hu1 v hv1 huo hvo
      · have hu2 : u = actor := by
          rcases (mem_hkeys_hset _ _ _ _).mp hu with h1 | h1
          · exact h1
          · exact absurd (hall u h1) huo
        have hv2 : v = actor := by
          rcases (mem_hkeys_hset _ _ _ _).mp hv with h1 | h1
          · exact h1
          · exact absurd (hall v h1) hvo
        rw [hu2, hv2]
    · rw [sessionWrite_occ_other s room actor cid r' hrr] at hu hv
      exact (hinv r').2 ro' hro2 u hu v hv huo hvo

theorem occInv_delPost (s : St) (id : String) (c : ConnRec) (hinv : OccInv s) :
    OccInv (delPost s id c) := by
  intro r'
  by_cases hcur : hget (s.occ c.room) c.owner = some id
  · constructor
    · rw [delPost_occ_current s id c hcur r']
      by_cases hrr : r' = c.room
      · rw [if_pos hrr]
        exact nodup_hkeys_hdel _ _ (hinv c.room).1
      · rw [if_neg hrr]
        exact (hinv r').1
    · intro ro' hro' u hu v hv huo hvo
      have hro2 : s.rooms r' = some ro' := hro'
      rw [delPost_occ_current s id c hcur r'] at hu hv
      by_cases hrr : r' = c.room
      · rw [if_pos hrr] at hu hv
        rw [hrr] at hro2
        exact (hinv c.room).2 ro' hro2 u (mem_hkeys_hdel _ _ _ hu) v
          (mem_hkeys_hdel _ _ _ hv) huo hvo
      · rw [if_neg hrr] at hu hv
        exact (hinv r').2 ro' hro2 u hu v hv huo hvo
  · rw [delPost_occ_stale s id c hcur]
    constructor
    · exact (hinv r').1
    · intro ro' hro' u hu v hv huo hvo
      have hro2 : s.rooms r' = some ro' := hro'
      exact (hinv r').2 ro' hro2 u hu v hv huo hvo

theorem occInv_createSession (s : St) (room actor cid : String) (res : Session × St)
    (h : createSession s room actor cid = .ok res) (hinv : OccInv s) : OccInv res.2 := by
  cases hchk : sessionCheck s room actor with
  | error e =>
    rw [createSession_of_check_error s room actor cid e hchk] at h
    exact Except.noConfusion h
  | ok rs =>
    rw [createSession_of_check_ok s room actor cid rs hchk] at h
    obtain ⟨ro, hr, hA, hG⟩ := sessionCheck_ok_inv s room actor rs hchk
    cases h
    exact occInv_sessionWrite s room actor cid ro hr hA hG hinv

theorem occInv_deleteSession (s : St) (id : String) (s' : St)
    (h : deleteSession s id = .ok s') (hinv : OccInv s) : OccInv s' := by
  cases hc : s.conn id with
  | none =>
    rw [deleteSession_notFound s id hc] at h
    exact Except.noConfusion h
  | some c =>
    rw [deleteSession_found s id c hc] at h
    cases h
    exact occInv_delPost s id c hinv

theorem occInv_applyOp (s : St) (op : SessOp) (h : OccInv s) : OccInv (applyOp s op) := by
  cases op with
  | create room actor cid =>
    show OccInv
      (match createSession s room actor cid with
      | .ok r => r.2
      | .error _ => s)
    cases hc : createSession s room actor cid with
    | ok r => exact occInv_createSession s room actor cid r hc h
    | error e => exact h
  | delete cid =>
    show OccInv
      (match deleteSession s cid with
      | .ok s' => s'
      | .error _ => s)
    cases hc : deleteSession s cid with
    | ok s' => exact occInv_deleteSession s cid s' hc h
    | error e => exact h

theorem occInv_runOps (ops : List SessOp) (s : St) (h : OccInv s) :
    OccInv (runOps s ops) := by
  induction ops generalizing s with
  | nil => exact h
  | cons op rest ih => exact ih (applyOp s op) (occInv_applyOp s op h)

theorem occInv_initSt (rooms0 : String → Option RoomRec)
    (users0 : String → Option UserRec) : OccInv (initSt rooms0 users0) := by
  intro r
  constructor
  · simp [initSt, hkeys]
  · intro ro hro u hu v hv huo hvo
    simp [initSt, hkeys] at hu

theorem applyOp_rooms (s : St) (op : SessOp) : (applyOp s op).rooms = s.rooms := by
  cases op with
  | create room actor cid =>
    show (match createSession s room actor cid with
      | .ok r => r.2
      | .error _ => s).rooms = s.rooms
    cases hc : createSession s room actor cid with
    | ok r =>
      cases hchk : sessionCheck s room actor with
      | error e =>
        rw [createSession_of_check_error s room actor cid e hchk] at hc
        exact Except.noConfusion hc
      | ok rs =>
        rw [createSession_of_check_ok s room actor cid rs hchk] at hc
        cases hc
        rfl
    | error e => rfl
  | delete cid =>
    show (match deleteSession s cid with
      | .ok s' => s'
      | .error _ => s).rooms = s.rooms
    cases hc : deleteSession s cid with
    | ok s' =>
      cases hcc : s.conn cid with
      | none =>
        rw [deleteSession_notFound s cid hcc] at hc
        exact Except.noConfusion hc
      | some c =>
        rw [deleteSession_found s cid c hcc] at hc
        cases hc
        rfl
    | error e => rfl

theorem runOps_rooms (ops : List SessOp) (s : St) :
    (runOps s ops).rooms = s.rooms := by
  induction ops generalizing s with
  | nil => rfl
  | cons op rest ih =>
    rw [runOps, List.foldl_cons, ← runOps, ih, applyOp_rooms]

theorem length_le_two_of_unique (l : List String) (w : String) (hnd : l.Nodup)
    (huniq : ∀ u ∈ l, ∀ v ∈ l, u ≠ w → v ≠ w → u = v) : l.length ≤ 2 := by
  match l with
  | [] => simp
  | [a] => simp
  | [a, b] => simp
  | a :: b :: c :: t =>
    exfalso
    simp only [List.nodup_cons, List.mem_cons] at hnd
    have hab : a ≠ b := fun h => hnd.1 (Or.inl h)
    have hac : a ≠ c := fun h => hnd.1 (Or.inr (Or.inl h))
    have hbc : b ≠ c := fun h => hnd.2.1 (Or.inl h)
    have h1 : a ∈ a :: b :: c :: t := by simp
    have h2 : b ∈ a :: b :: c :: t := by simp
    have h3 : c ∈ a :: b :: c :: t := by simp
    by_cases haw : a = w
    · have hbw : b ≠ w := fun h => hab (by rw [haw, h])
      have hcw : c ≠ w := fun h => hac (by rw [haw, h])
      exact hbc (huniq b h2 c h3 hbw hcw)
    · by_cases hbw : b = w
      · have hcw : c ≠ w := fun h => hbc (by rw [hbw, h])
        exact hac (huniq a h1 c h3 haw hcw)
      · exact hab (huniq a h1 b h2 haw hbw)

theorem isJoin_eq_false_of_isLeave (m : StoredMessage) (h : m.isLeave = true) :
    m.isJoin = false := by
  cases m <;> simp [StoredMessage.isJoin, StoredMessage.isLeave] at *

/-- A concrete store used to exercise the session operations: room `r`
(slug `s`, owner `h`) currently holds host `h` linked to connection `c2`
and guest `g` linked to `c4`; `c1` is a superseded connection of `h`; `c3`
is a connection whose owner's user record has expired; room `r2` (owner
`h2`) is empty. -/
def exSt : St :=
  { users := fun i =>
      if i = "h" then some { id := "h", name := "Alice" }
      else if i = "g" then some { id := "g", name := "Bob" }
      else none,
    rooms := fun i =>
      if i = "r" then some { slug := "s", owner := "h" }
      else if i = "r2" then some { slug := "s2", owner := "h2" }
      else none,
    occ := fun i => if i = "r" then [("h", "c2"), ("g", "c4")] else [],
    conn := fun i =>
      if i = "c1" then some { room := "r", owner := "h" }
      else if i = "c2" then some { room := "r", owner := "h" }
      else if i = "c3" then some { room := "r", owner := "gone" }
      else if i = "c4" then some { room := "r", owner := "g" }
      else none,
    sigs := fun i =>
      if i = "c2" then some ["sig0"]
      else if i = "c4" then some []
      else none }

/-- The concrete store `exSt` with every user record expired. -/
def goneSt : St := { exSt with users := fun _ => none }

/-- A concrete store for the concurrent-join race: room `r` (owner `h`)
with the host connected, and no guest yet. -/
def raceSt : St :=
  { users := fun _ => none,
    rooms := fun i => if i = "r" then some { slug := "s", owner := "h" } else none,
    occ := fun i => if i = "r" then [("h", "c0")] else [],
    conn := fun i => if i = "c0" then some { room := "r", owner := "h" } else none,
    sigs := fun _ => none }

theorem exSt_usersWF : UsersWF exSt := by
  intro i u h
  simp only [exSt] at h
  split at h
  next hi =>
    cases h
    exact hi.symm
  next =>
    split at h
    next hi =>
      cases h
      exact hi.symm
    next => cases h

/-- Claim C1: starting from empty occupancy maps, every sequential
execution of `createSession` and `deleteSession` leaves each existing
room's occupancy map with at most two entries — at most one for the room's
owner and at most one for a single non-owner user (any two non-owner
occupants coincide). -/
theorem claim1_occupancy_invariant (rooms0 : String → Option RoomRec)
    (users0 : String → Option UserRec) (ops : List SessOp) (r : String) (ro : RoomRec)
    (hr : (runOps (initSt rooms0 users0) ops).rooms r = some ro) :
    ((runOps (initSt rooms0 users0) ops).occ r).length ≤ 2 ∧
    ∀ u ∈ hkeys ((runOps (initSt rooms0 users0) ops).occ r),
      ∀ v ∈ hkeys ((runOps (initSt rooms0 users0) ops).occ r),
        u ≠ ro.owner → v ≠ ro.owner → u = v := by
  have hinv := occInv_runOps ops (initSt rooms0 users0) (occInv_initSt rooms0 users0)
  have h1 := (hinv r).1
  have h2 := (hinv r).2 ro hr
  refine ⟨?_, h2⟩
  have hlen := length_le_two_of_unique
    (hkeys ((runOps (initSt rooms0 users0) ops).occ r)) ro.owner h1 h2
  rw [← hkeys_length]
  exact hlen

/-- The fixed room table used by the witness of the occupancy invariant. -/
def c1Rooms : String → Option RoomRec :=
  fun i => if i = "r" then some { slug := "s", owner := "h" } else none

/-- A concrete operation sequence: host joins, one guest joins, a second
guest is refused, the first guest leaves, the second guest joins. -/
def c1Ops : List SessOp :=
  [SessOp.create "r" "h" "a1", SessOp.create "r" "g1" "b1",
   SessOp.create "r" "g2" "b2", SessOp.delete "b1", SessOp.create "r" "g2" "b3"]

theorem claim1_occupancy_invariant_witness :
    (runOps (initSt c1Rooms (fun _ => none)) c1Ops).rooms "r" =
      some { slug := "s", owner := "h" } ∧
    ((runOps (initSt c1Rooms (fun _ => none)) c1Ops).occ "r").length ≤ 2 ∧
    ∀ u ∈ hkeys ((runOps (initSt c1Rooms (fun _ => none)) c1Ops).occ "r"),
      ∀ v ∈ hkeys ((runOps (initSt c1Rooms (fun _ => none)) c1Ops).occ "r"),
        u ≠ ({ slug := "s", owner := "h" } : RoomRec).owner →
        v ≠ ({ slug := "s", owner := "h" } : RoomRec).owner → u = v :=
  ⟨by decide,
   claim1_occupancy_invariant c1Rooms (fun _ => none) c1Ops "r"
     { slug := "s", owner := "h" } (by decide)⟩

/-- Claim C2 (refuted by the code): `createSession` is exactly its
occupancy read-and-check phase followed by its write phase, issued as
separate non-transactional calls (the `watch` on the occupancy key is
commented out in the source). Consequently, in the interleaving where both
guests `g1` and `g2` run the check against the same state before either
write commits, both checks pass and both writes land: two guests are
admitted to the room at once, contradicting the claimed atomic
compare-and-swap that would admit at most one. -/
theorem claim2_check_write_race :
    (∀ s room actor cid, createSession s room actor cid =
      match sessionCheck s room actor with
      | .error e => .error e
      | .ok rs =>
        .ok ({ id := cid, role := rs.1, room := { id := room, slug := rs.2 } },
          sessionWrite s room actor cid)) ∧
    sessionCheck raceSt "r" "g1" = .ok (Role.guest, "s") ∧
    sessionCheck raceSt "r" "g2" = .ok (Role.guest, "s") ∧
    hget ((sessionWrite (sessionWrite raceSt "r" "g1" "c1") "r" "g2" "c2").occ "r") "g1" =
      some "c1" ∧
    hget ((sessionWrite (sessionWrite raceSt "r" "g1" "c1") "r" "g2" "c2").occ "r") "g2" =
      some "c2" ∧
    hkeys ((sessionWrite (sessionWrite raceSt "r" "g1" "c1") "r" "g2" "c2").occ "r") =
      ["h", "g1", "g2"] :=
  ⟨fun _ _ _ _ => rfl, rfl, rfl, rfl, rfl, rfl⟩

/-- Claim C3: if a connection record exists but the owner's entry in the
room's occupancy map no longer equals that connection id (the connection
was superseded), `getSession` resolves to absent even though the backing
record persists. -/
theorem claim3_getSession_superseded (s : St) (id : String) (c : ConnRec)
    (hc : s.conn id = some c) (hw : UsersWF s)
    (hl : hget (s.occ c.room) c.owner ≠ some id) :
    getSession s id = none := by
  simp only [getSession, hc]
  cases hu : s.users c.owner with
  | none => rfl
  | some u =>
    show (if hget (s.occ c.room) u.id = some id then
        some ({ room := c.room, owner := u.id } : ConnRec) else none) = none
    rw [hw c.owner u hu, if_neg hl]

theorem claim3_getSession_superseded_witness :
    exSt.conn "c1" = some { room := "r", owner := "h" } ∧
    hget (exSt.occ "r") "h" ≠ some "c1" ∧
    getSession exSt "c1" = none :=
  ⟨by decide, by decide,
   claim3_getSession_superseded exSt "c1" { room := "r", owner := "h" } (by decide)
     exSt_usersWF (by decide)⟩

/-- Claim C4: `createSession` fails NotFound when the room is absent;
fails Conflict when the actor already holds an occupancy entry; fails
Conflict when the actor is a guest (not the room owner) and a non-owner
entry already exists; and otherwise succeeds, writing a fresh connection
record and the actor's occupancy entry. -/
theorem claim4_createSession_cases (s : St) (room actor cid : String) :
    (s.rooms room = none → createSession s room actor cid = .error .notFound) ∧
    ∀ ro, s.rooms room = some ro →
      (actor ∈ hkeys (s.occ room) →
        createSession s room actor cid = .error .conflict) ∧
      (actor ∉ hkeys (s.occ room) → actor ≠ ro.owner →
        (∃ u ∈ hkeys (s.occ room), u ≠ ro.owner) →
        createSession s room actor cid = .error .conflict) ∧
      (actor ∉ hkeys (s.occ room) →
        (actor = ro.owner ∨ ∀ u ∈ hkeys (s.occ room), u = ro.owner) →
        createSession s room actor cid =
          .ok ({ id := cid,
                 role := if actor = ro.owner then Role.host else Role.guest,
                 room := { id := room, slug := ro.slug } },
            sessionWrite s room actor cid) ∧
        (sessionWrite s room actor cid).conn cid = some { room := room, owner := actor } ∧
        hget ((sessionWrite s room actor cid).occ room) actor = some cid) := by
  constructor
  · intro h
    exact createSession_of_check_error s room actor cid _ (sessionCheck_notFound s room actor h)
  · intro ro hr
    refine ⟨?_, ?_, ?_⟩
    · intro hA
      exact createSession_of_check_error s room actor cid _
        (sessionCheck_already s room actor ro hr hA)
    · intro hA ho hex
      have hg : (hkeys (s.occ room)).filter (fun u => u ≠ ro.owner) ≠ [] := by
        intro hnil
        obtain ⟨x, hx, hxo⟩ := hex
        exact hxo ((filter_ne_eq_nil_iff _ _).mp hnil x hx)
      exact createSession_of_check_error s room actor cid _
        (sessionCheck_guestFull s room actor ro hr hA ho hg)
    · intro hA hG
      refine ⟨?_, sessionWrite_conn_self s room actor cid, ?_⟩
      · rw [createSession_of_check_ok s room actor cid _
          (sessionCheck_ok s room actor ro hr hA hG)]
      · rw [sessionWrite_occ_self]
        exact hget_hset_self _ _ _

theorem claim4_createSession_cases_witness :
    createSession exSt "x" "h" "c9" = .error .notFound ∧
    createSession exSt "r" "h" "c9" = .error .conflict ∧
    createSession exSt "r" "g2" "c9" = .error .conflict ∧
    createSession exSt "r2" "g9" "c9" =
      .ok ({ id := "c9", role := Role.guest, room := { id := "r2", slug := "s2" } },
        sessionWrite exSt "r2" "g9" "c9") :=
  ⟨(claim4_createSession_cases exSt "x" "h" "c9").1 (by decide),
   (((claim4_createSession_cases exSt "r" "h" "c9").2
      { slug := "s", owner := "h" } (by decide)).1 (by decide)),
   (((claim4_createSession_cases exSt "r" "g2" "c9").2
      { slug := "s", owner := "h" } (by decide)).2.1 (by decide) (by decide)
      ⟨"g", by decide, by decide⟩),
   (((claim4_createSession_cases exSt "r2" "g9" "c9").2
      { slug := "s2", owner := "h2" } (by decide)).2.2 (by decide)
      (Or.inr (by decide))).1⟩

/-- Claim C5: `deleteSession` fails NotFound when the connection record is
absent; otherwise it succeeds, removing the owner's occupancy entry only
when that entry still equals the id (silently skipping the removal when
superseded, never raising), and unconditionally deleting the connection
record and its signal stream. -/
theorem claim5_deleteSession_spec (s : St) (id : String) :
    (s.conn id = none → deleteSession s id = .error .notFound) ∧
    ∀ c, s.conn id = some c →
      deleteSession s id = .ok (delRun s id) ∧
      (hget (s.occ c.room) c.owner = some id →
        ∀ rm, (delRun s id).occ rm =
          if rm = c.room then hdel (s.occ c.room) c.owner else s.occ rm) ∧
      (hget (s.occ c.room) c.owner ≠ some id → (delRun s id).occ = s.occ) ∧
      (delRun s id).conn id = none ∧
      (delRun s id).sigs id = none := by
  constructor
  · exact deleteSession_notFound s id
  · intro c hc
    rw [delRun_found s id c hc]
    exact ⟨deleteSession_found s id c hc,
      fun hcur rm => delPost_occ_current s id c hcur rm,
      fun hcur => delPost_occ_stale s id c hcur,
      delPost_conn_self s id c, delPost_sigs_self s id c⟩

theorem claim5_deleteSession_spec_witness :
    exSt.conn "c2" = some { room := "r", owner := "h" } ∧
    deleteSession exSt "c2" = .ok (delRun exSt "c2") ∧
    (delRun exSt "c2").occ "r" = hdel (exSt.occ "r") "h" ∧
    (delRun exSt "c2").conn "c2" = none ∧
    (delRun exSt "c2").sigs "c2" = none := by
  have hc : exSt.conn "c2" = some { room := "r", owner := "h" } := by decide
  obtain ⟨heq, hcur, _, hconn, hsigs⟩ :=
    (claim5_deleteSession_spec exSt "c2").2 { room := "r", owner := "h" } hc
  exact ⟨hc, heq, hcur (by decide) "r", hconn, hsigs⟩

/-- Claim C6: whenever `deleteSession` succeeds on a connection id, a
subsequent `getSession` on the same id returns absent. -/
theorem claim6_delete_then_get (s : St) (id : String) (s' : St)
    (h : deleteSession s id = .ok s') : getSession s' id = none := by
  cases hc : s.conn id with
  | none =>
    rw [deleteSession_notFound s id hc] at h
    exact Except.noConfusion h
  | some c =>
    rw [deleteSession_found s id c hc] at h
    cases h
    simp only [getSession, delPost_conn_self]

theorem claim6_delete_then_get_witness :
    getSession (delRun exSt "c4") "c4" = none := by
  have hc : exSt.conn "c4" = some { room := "r", owner := "g" } := by decide
  have h : deleteSession exSt "c4" = .ok (delRun exSt "c4") := by
    rw [delRun_found exSt "c4" _ hc]
    exact deleteSession_found exSt "c4" _ hc
  exact claim6_delete_then_get exSt "c4" (delRun exSt "c4") h

/-- Claim C7: `updateUser` fails NotFound when the user record is already
absent at the optimistic existence check, and fails Conflict when the
record existed at the check but vanished by the time the name write
commits. -/
theorem claim7_updateUser_errors (s1 s2 : St) (id nm : String) :
    (s1.users id = none → storeUpdateUser s1 s2 id nm = .error .notFound) ∧
    (s1.users id ≠ none → s2.users id = none →
      storeUpdateUser s1 s2 id nm = .error .conflict) := by
  constructor
  · intro h
    simp [storeUpdateUser, connUpdateUser, h]
  · intro h1 h2
    cases hu : s1.users id with
    | none => exact absurd hu h1
    | some u =>
      have hne : ¬s1.users id = s2.users id := by
        rw [hu, h2]
        simp
      simp [storeUpdateUser, connUpdateUser, hu, hne, h2]

theorem claim7_updateUser_errors_witness :
    storeUpdateUser goneSt exSt "h" "Zoe" = .error .notFound ∧
    storeUpdateUser exSt goneSt "h" "Zoe" = .error .conflict :=
  ⟨(claim7_updateUser_errors goneSt exSt "h" "Zoe").1 rfl,
   (claim7_updateUser_errors exSt goneSt "h" "Zoe").2 (by decide) rfl⟩

/-- Claim C8: in the relay loop, a consumed Join entry whose acting user
differs from the forwarder's actor makes that entry's session the current
peer; a consumed Leave entry whose session equals the current peer drops
the peer; and no other Join, Leave, or Chat entry changes the peer. -/
theorem claim8_peer_transitions (s : St) (actor : String) (st : FwdState) :
    (∀ t u c role, u ≠ actor →
      (fwdStep s actor st (.message (.join t u c role))).1.peer = some c) ∧
    (∀ t c role,
      (fwdStep s actor st (.message (.join t actor c role))).1.peer = st.peer) ∧
    (∀ t u c, st.peer = some c →
      (fwdStep s actor st (.message (.leave t u c))).1.peer = none) ∧
    (∀ t u c, st.peer ≠ some c →
      (fwdStep s actor st (.message (.leave t u c))).1.peer = st.peer) ∧
    (∀ t u c msg,
      (fwdStep s actor st (.message (.chat t u c msg))).1.peer = st.peer) := by
  refine ⟨?_, ?_, ?_, ?_, ?_⟩
  · intro t u c role hu
    simp [fwdStep, StoredMessage.isJoin, StoredMessage.isLeave, StoredMessage.user,
      StoredMessage.session, hu]
  · intro t c role
    simp [fwdStep, StoredMessage.isJoin, StoredMessage.isLeave, StoredMessage.user,
      StoredMessage.session]
  · intro t u c hp
    simp [fwdStep, StoredMessage.isJoin, StoredMessage.isLeave, StoredMessage.user,
      StoredMessage.session, hp]
  · intro t u c hp
    simp [fwdStep, StoredMessage.isJoin, StoredMessage.isLeave, StoredMessage.user,
      StoredMessage.session, hp]
  · intro t u c msg
    simp [fwdStep, StoredMessage.isJoin, StoredMessage.isLeave, StoredMessage.user,
      StoredMessage.session]

theorem claim8_peer_transitions_witness :
    ("g" : String) ≠ "h" ∧
    (fwdStep exSt "h" { peer := none, users := [] }
      (.message (.join 0 "g" "c4" Role.guest))).1.peer = some "c4" :=
  ⟨by decide,
   (claim8_peer_transitions exSt "h" { peer := none, users := [] }).1 0 "g" "c4"
     Role.guest (by decide)⟩

/-- Claim C9: `getSession` returns absent whenever the connection owner's
user record no longer exists, even if the connection record is present and
the occupancy map still links the owner to this id. -/
theorem claim9_getSession_user_gone (s : St) (id : String) (c : ConnRec)
    (hc : s.conn id = some c) (hu : s.users c.owner = none) :
    getSession s id = none := by
  simp [getSession, hc, hu]

theorem claim9_getSession_user_gone_witness :
    exSt.conn "c3" = some { room := "r", owner := "gone" } ∧
    getSession exSt "c3" = none :=
  ⟨by decide,
   claim9_getSession_user_gone exSt "c3" { room := "r", owner := "gone" } (by decide)
     (by decide)⟩

/-- Claim C10: a Join, Leave, or Chat entry whose acting user cannot be
resolved through the forwarder's memoized lookup is not forwarded to the
destination at all, yet the peer adoption (Join by another user) and peer
drop (Leave matching the current peer) transitions are still applied. -/
theorem claim10_unresolved_user (s : St) (actor : String) (st : FwdState)
    (m : StoredMessage) (h : (resolveUser s st.users m.user).1 = none) :
    (fwdStep s actor st (.message m)).2 = [] ∧
    (m.isJoin = true → m.user ≠ actor →
      (fwdStep s actor st (.message m)).1.peer = some m.session) ∧
    (m.isLeave = true → st.peer = some m.session →
      (fwdStep s actor st (.message m)).1.peer = none) := by
  refine ⟨?_, ?_, ?_⟩
  · simp [fwdStep, h]
  · intro hj hu
    simp [fwdStep, hj, hu]
  · intro hl hp
    simp [fwdStep, isJoin_eq_false_of_isLeave m hl, hl, hp]

theorem claim10_unresolved_user_witness :
    (resolveUser exSt [] "gone").1 = none ∧
    (fwdStep exSt "h" { peer := none, users := [] }
      (.message (.join 0 "gone" "c9" Role.guest))).2 = [] ∧
    (fwdStep exSt "h" { peer := none, users := [] }
      (.message (.join 0 "gone" "c9" Role.guest))).1.peer = some "c9" := by
  have h : (resolveUser exSt ({ peer := none, users := [] } : FwdState).users
      ((StoredMessage.join 0 "gone" "c9" Role.guest).user)).1 = none := by decide
  obtain ⟨h1, h2, _⟩ :=
    claim10_unresolved_user exSt "h" { peer := none, users := [] }
      (.join 0 "gone" "c9" Role.guest) h
  exact ⟨h, h1, h2 (by decide) (by decide)⟩

end Portico


